import Mathlib

/-!
Verification of the entity-resolution core of `uta-net.py` (a lyrics tagger).

Strings are modelled as `List Char`.  The Python standard-library text
primitives used by the source (`unicodedata.normalize("NFKC", ·)`,
`unicodedata.category`, `str.lower`, `str.strip`, `str.split`,
`difflib.SequenceMatcher.ratio`, the regex `[一-鿿]+`) are embedded
below; the Unicode data tables are modelled on the fragment of characters
that appears in this development, with the real Unicode values.
Floating-point scores are modelled by exact rationals; every constant the
source compares against (0.3, 0.7, 0.8) and every ratio value reached in the
concrete runs below is exactly representable, so no comparison in this
development is sensitive to the difference.
-/

/-- Unicode general categories, restricted to the ones the modelled
character fragment needs.  `Xx` stands for any category of a character
outside the modelled fragment; it is neither a symbol nor punctuation
category, so such characters are kept by the normalizer's filter. -/
inductive UCat where
  | Lu | Ll | Lo | Nd | Zs | Cc | Mn
  | Sm | Sc | Sk | So
  | Ps | Pe | Pd | Pc | Po
  | Xx
deriving DecidableEq

/-- Modelled from Python `unicodedata.category`, restricted to the
characters used in this development: ASCII (full coverage of the letters,
digits, space, control characters and the listed symbols/punctuation, with
their real Unicode general categories), the CJK unified ideographs block
U+4E00..U+9FFF (all `Lo`), the hiragana letters that occur in the test
strings (`Lo`), U+00E0 ('à', `Ll`) and U+0300 (combining grave accent,
`Mn`).  Characters outside the fragment get the neutral marker `Xx`. -/
def uCat (c : Char) : UCat :=
  let n := c.toNat
  if 65 ≤ n ∧ n ≤ 90 then .Lu
  else if 97 ≤ n ∧ n ≤ 122 then .Ll
  else if 48 ≤ n ∧ n ≤ 57 then .Nd
  else if n = 32 then .Zs
  else if n ≤ 31 ∨ n = 127 then .Cc
  else if c = '$' then .Sc
  else if c = '+' ∨ c = '<' ∨ c = '=' ∨ c = '>' ∨ c = '|' ∨ c = '~' then .Sm
  else if c = '^' then .Sk
  else if c = '(' then .Ps
  else if c = ')' then .Pe
  else if c = '-' then .Pd
  else if c = '_' then .Pc
  else if c = '!' ∨ c = '#' ∨ c = '%' ∨ c = '&' ∨ c = '\'' ∨ c = '*' ∨
          c = ',' ∨ c = '.' ∨ c = '/' ∨ c = ':' ∨ c = ';' ∨ c = '?' ∨
          c = '@' ∨ c = '\\' then .Po
  else if c = 'à' then .Ll
  else if c = '̀' then .Mn
  else if c = 'に' ∨ c = 'け' ∨ c = 'る' then .Lo
  else if 0x4e00 ≤ n ∧ n ≤ 0x9fff then .Lo
  else .Xx

/-- The source's test `unicodedata.category(char).startswith(("So", "Sm", "Sk", "Sc"))`. -/
def isSymbolCat : UCat → Bool
  | .Sm | .Sc | .Sk | .So => true
  | _ => false

/-- The source's test `unicodedata.category(char).startswith("P")`. -/
def isPunctCat : UCat → Bool
  | .Ps | .Pe | .Pd | .Pc | .Po => true
  | _ => false

/-- The punctuation allow-list literal `"'.:()（）"` of `normalize_text`. -/
def allowPunct : List Char := ['\'', '.', ':', '(', ')', '（', '）']

/-- Modelled from Python `unicodedata.normalize("NFKC", ·)`, restricted to
the characters used in this development: none of them has a compatibility
decomposition, and the only canonical composition among them is
U+0061 'a' followed by U+0300 (combining grave accent), which composes to
the precomposed U+00E0 'à' (a standard NFC composition pair). -/
def pyNFKC : List Char → List Char
  | 'a' :: c :: rest =>
      if c = '̀' then 'à' :: pyNFKC rest else 'a' :: pyNFKC (c :: rest)
  | c :: rest => c :: pyNFKC rest
  | [] => []

/-- The lowercase table of Python `str.lower`, restricted to the modelled
fragment: of the characters used in this development only the ASCII capital
letters have a lowercase mapping. -/
def lowerTable : List (Char × Char) :=
  [('A', 'a'), ('B', 'b'), ('C', 'c'), ('D', 'd'), ('E', 'e'), ('F', 'f'),
   ('G', 'g'), ('H', 'h'), ('I', 'i'), ('J', 'j'), ('K', 'k'), ('L', 'l'),
   ('M', 'm'), ('N', 'n'), ('O', 'o'), ('P', 'p'), ('Q', 'q'), ('R', 'r'),
   ('S', 's'), ('T', 't'), ('U', 'u'), ('V', 'v'), ('W', 'w'), ('X', 'x'),
   ('Y', 'y'), ('Z', 'z')]

/-- One character of Python `str.lower` (identity outside the table). -/
def lowerChar (c : Char) : Char :=
  match lowerTable.find? (fun p => p.1 = c) with
  | some p => p.2
  | none => c

/-- Python `str.lower` on the modelled fragment (characterwise there). -/
def pyLower (l : List Char) : List Char := l.map lowerChar

/-- Python whitespace (`str.isspace`), restricted to the characters used in
this development; `str.strip` and `str.split` remove exactly these. -/
def isPySpace (c : Char) : Bool :=
  c = ' ' ∨ c = '\t' ∨ c = '\n' ∨ c = '\r' ∨ c = '\u000b' ∨ c = '\u000c'

/-- Removal of trailing whitespace (the right half of Python `str.strip`). -/
def dropTrail (l : List Char) : List Char :=
  l.foldr (fun c acc => if acc = [] ∧ isPySpace c then [] else c :: acc) []

/-- Python `str.strip`: remove leading and trailing whitespace. -/
def pyStrip (l : List Char) : List Char := dropTrail (l.dropWhile isPySpace)

/-- The per-character filter of `normalize_text` (src/uta-net.py:250-255):
a character is kept unless its category is a symbol category, or is a
punctuation category while the character is not on the allow-list. -/
def keepChar (c : Char) : Bool :=
  !(isSymbolCat (uCat c)) && (!(isPunctCat (uCat c)) || allowPunct.contains c)

/-- `LyricsTagger.normalize_text` (src/uta-net.py:244-257): NFKC, then drop
every symbol-category character and every punctuation character not on the
allow-list, then lowercase and strip. -/
def normalize_text (title : List Char) : List Char :=
  let t := pyNFKC title
  let cleaned := t.filter keepChar
  pyStrip (pyLower cleaned)

/-- Length of the longest common initial run of two character lists. -/
def matchLen : List Char → List Char → Nat
  | a :: as, b :: bs => if a = b then matchLen as bs + 1 else 0
  | _, _ => 0

/-- One candidate inspection of `difflib`'s longest-match search: replace
the best block found so far by the block starting at `(i, j)` when the
latter is strictly longer (`difflib` keeps the earliest block on ties). -/
def bestUpd (a b : List Char) (best : Nat × Nat × Nat) (i j : Nat) :
    Nat × Nat × Nat :=
  let k := matchLen (a.drop i) (b.drop j)
  if best.2.2 < k then (i, j, k) else best

/-- `difflib.SequenceMatcher.find_longest_match` (no junk, autojunk
inactive on the short strings involved): the longest common contiguous
block, earliest in `a` and then earliest in `b` on ties, returned as
(start in `a`, start in `b`, length). -/
def bestFrom (a b : List Char) : Nat × Nat × Nat :=
  (List.range a.length).foldl
    (fun st i => (List.range b.length).foldl (fun st' j => bestUpd a b st' i j) st)
    (0, 0, 0)

/-- Recursion of `difflib.SequenceMatcher.get_matching_blocks`, summed:
take the longest match, recurse on the parts left and right of it.  The
fuel argument dominates the recursion depth: every recursive call strictly
decreases `a.length + b.length`, so `matchTotal` below never exhausts it. -/
def matchTotalF : Nat → List Char → List Char → Nat
  | 0, _, _ => 0
  | fuel + 1, a, b =>
    let t := bestFrom a b
    if t.2.2 = 0 then 0
    else
      t.2.2 + matchTotalF fuel (a.take t.1) (b.take t.2.1) +
        matchTotalF fuel (a.drop (t.1 + t.2.2)) (b.drop (t.2.1 + t.2.2))

/-- Total size of the matching blocks of `difflib.SequenceMatcher`. -/
def matchTotal (a b : List Char) : Nat := matchTotalF (a.length + b.length) a b

/-- `difflib.SequenceMatcher(None, a, b).ratio()`: `2*M/T` with `M` the
total matched size and `T` the total length; 1 when both are empty. -/
def pyRatio (a b : List Char) : Rat :=
  if a.length + b.length = 0 then 1
  else (2 * (matchTotal a b : Rat)) / ((a.length : Rat) + (b.length : Rat))

/-- `pat` occurs at the head of `s`. -/
def leadsWith : List Char → List Char → Bool
  | [], _ => true
  | _ :: _, [] => false
  | a :: ps, b :: ss => a = b && leadsWith ps ss

/-- Python's substring test `pat in s` (contiguous occurrence anywhere;
true for the empty pattern). -/
def pyIn (pat : List Char) : List Char → Bool
  | [] => leadsWith pat []
  | c :: rest => leadsWith pat (c :: rest) || pyIn pat rest

/-- Loop state of `find_best_match`: the thresholded best candidate with
its ratio, and the longest substring fallback seen so far. -/
structure FBMState where
  best : Option (List Char)
  highest : Rat
  sub : Option (List Char)

/-- Python truthiness of an optional string: `None` and the empty string
are falsy (`if not x: ...`), a non-empty string is truthy. -/
def pyTruthy : Option (List Char) → Bool
  | none => false
  | some [] => false
  | some (_ :: _) => true

/-- One candidate inspection of `LyricsTagger.find_best_match`
(src/uta-net.py:102-114): record the candidate as best when its ratio
strictly improves the maximum and meets the threshold; otherwise, while no
truthy best exists, track the candidate substrings of the query, a longer
one replacing the retained one (`not substring_match` also fires on a
retained empty string, by Python truthiness). -/
def fbmStep (q : List Char) (thr : Rat) (st : FBMState) (c : List Char) : FBMState :=
  let ratio := pyRatio q c
  let st1 : FBMState :=
    if st.highest < ratio ∧ thr ≤ ratio then ⟨some c, ratio, st.sub⟩ else st
  if pyTruthy st1.best = false ∧ pyIn c q = true then
    match st1.sub with
    | none => ⟨st1.best, st1.highest, some c⟩
    | some s =>
      if s = [] ∨ s.length < c.length then ⟨st1.best, st1.highest, some c⟩ else st1
  else st1

/-- `LyricsTagger.find_best_match` (src/uta-net.py:84-125): thresholded
fuzzy best match over the candidates with a longest-substring fallback
whose ratio is recomputed on return.  The source's final
`if not best_match and substring_match: ... elif best_match: ...` tests
Python truthiness, so an empty-string best or fallback counts as absent. -/
def find_best_match (q : List Char) (cands : List (List Char)) (thr : Rat) :
    Option (List Char × Rat) :=
  let st := cands.foldl (fbmStep q thr) ⟨none, 0, none⟩
  match st.best, st.sub with
  | none, some (c :: cs) => some (c :: cs, pyRatio q (c :: cs))
  | some [], some (c :: cs) => some (c :: cs, pyRatio q (c :: cs))
  | some (b :: bs), _ => some (b :: bs, st.highest)
  | _, _ => none

/-- Membership in the CJK unified ideographs block, the character class of
the source's regex `[一-鿿]` (src/uta-net.py:387). -/
def isKanji (c : Char) : Bool := 0x4e00 ≤ c.toNat ∧ c.toNat ≤ 0x9fff

/-- Accumulator pass splitting a string into its maximal runs of CJK
ideographs, in order of appearance (`re.finditer` of `[一-鿿]+`);
`cur` is the reversed run in progress. -/
def kanjiRunsAux : List Char → List Char → List (List Char)
  | cur, [] => if cur = [] then [] else [cur.reverse]
  | cur, c :: rest =>
    if isKanji c then kanjiRunsAux (c :: cur) rest
    else (if cur = [] then [] else [cur.reverse]) ++ kanjiRunsAux [] rest

/-- All maximal CJK-ideograph runs of a string, in order of appearance. -/
def kanjiRuns (l : List Char) : List (List Char) := kanjiRunsAux [] l

/-- Accumulator pass of Python `str.split()` (split on whitespace runs,
no empty words); `cur` is the reversed word in progress. -/
def pySplitAux : List Char → List Char → List (List Char)
  | cur, [] => if cur = [] then [] else [cur.reverse]
  | cur, c :: rest =>
    if isPySpace c then (if cur = [] then [] else [cur.reverse]) ++ pySplitAux [] rest
    else pySplitAux (c :: cur) rest

/-- Python `str.split()`: the whitespace-delimited words of a string. -/
def pySplit (l : List Char) : List (List Char) := pySplitAux [] l

/-- Python `" ".join`. -/
def joinWords : List (List Char) → List Char
  | [] => []
  | [w] => w
  | w :: ws => w ++ ' ' :: joinWords ws

/-- Insertion into a list sorted by decreasing length, after every entry of
length at least the new entry's (so equal lengths keep their order). -/
def insDesc (x : List Char) : List (List Char) → List (List Char)
  | [] => [x]
  | y :: ys => if y.length ≤ x.length then x :: y :: ys else y :: insDesc x ys

/-- Python `sorted(·, key=len, reverse=True)` / `.sort(key=len,
reverse=True)`: stable sort by decreasing length (insertion sort from the
right is stable and sorts descending). -/
def sortLenDesc (l : List (List Char)) : List (List Char) := l.foldr insDesc []

/-- Accumulator pass of Python `dict.fromkeys` deduplication: keep the
first occurrence of every element; `seen` holds the elements already kept. -/
def pyDedupAux (seen : List (List Char)) : List (List Char) → List (List Char)
  | [] => []
  | x :: xs =>
    if x ∈ seen then pyDedupAux seen xs else x :: pyDedupAux (x :: seen) xs

/-- Python `list(dict.fromkeys(·))`: first-occurrence deduplication. -/
def pyDedup (l : List (List Char)) : List (List Char) := pyDedupAux [] l

/-- `LyricsTagger.extract_search_terms` (src/uta-net.py:375-407): the raw
text, then (unless normalization is empty, which short-circuits to the
first 10 characters of the stripped raw text) the normalized text, the
CJK runs longest-first, and the word-window substrings longest-first that
were not already present; deduplicated and truncated to `maxTerms`. -/
def extract_search_terms (text : List Char) (maxTerms : Nat) : List (List Char) :=
  let normalized := normalize_text text
  if normalized = [] then [(pyStrip text).take 10]
  else
    let searchTerms := [text, normalized] ++ sortLenDesc (kanjiRuns normalized)
    let words := pySplit normalized
    let substrings := (List.range words.length).foldr (fun i acc =>
      (((List.range' (i + 1) (words.length - i)).map
          (fun j => joinWords ((words.drop i).take (j - i)))).filter
        (fun sub => sub ∉ searchTerms)) ++ acc) []
    (pyDedup (searchTerms ++ sortLenDesc substrings)).take maxTerms

/-- Best-so-far state of the two resolution loops: the best catalogue
entry found and its score. -/
structure BestState where
  best : Option (List Char × List Char × List Char)
  highest : Rat
deriving DecidableEq

/-- Processing of one term's non-empty artist-search results in
`LyricsTagger.search_artist_url` (src/uta-net.py:143-155): run
`find_best_match` over the display names with threshold 0.3, and on a
strict improvement record the matched entry (rearranged to (url, name,
song count)); `entry_mapping` is a dict comprehension, so a duplicated
display name resolves to its last entry. -/
def artist_step (artistName : List Char) (st : BestState)
    (entries : List (List Char × List Char × List Char)) : BestState :=
  match find_best_match artistName (entries.map (·.1)) (3/10) with
  | none => st
  | some (matchedName, ratio) =>
    if st.highest < ratio then
      match entries.reverse.find? (fun e => e.1 = matchedName) with
      | some e => ⟨some (e.2.1, e.1, e.2.2), ratio⟩
      | none => st
    else st

/-- Term loop of `LyricsTagger.search_artist_url` (src/uta-net.py:136-158),
with the collaborator `get_artist_search_results` abstracted as `respond`
(`none` models its transport-error result, src/uta-net.py:600-601).  A
term with no entries is skipped (`continue`, which also skips the
break-check); after processing a non-empty result the loop stops as soon
as the best ratio so far is at least 0.3.  Returns the final state and the
list of terms actually issued to the collaborator. -/
def search_artist_loop
    (respond : List Char → Option (List (List Char × List Char × List Char)))
    (artistName : List Char) :
    List (List Char) → BestState → BestState × List (List Char)
  | [], st => (st, [])
  | t :: ts, st =>
    match respond t with
    | none =>
      let r := search_artist_loop respond artistName ts st
      (r.1, t :: r.2)
    | some [] =>
      let r := search_artist_loop respond artistName ts st
      (r.1, t :: r.2)
    | some (e :: es) =>
      let st' := artist_step artistName st (e :: es)
      if (3 : Rat)/10 ≤ st'.highest then (st', [t])
      else
        let r := search_artist_loop respond artistName ts st'
        (r.1, t :: r.2)

/-- The combined score of one title-search entry (title, url, artist) in
`LyricsTagger.get_lyrics_by_title_search` (src/uta-net.py:436-444):
`0.3 * titleSimilarity + 0.7 * artistSimilarity` over normalized strings. -/
def combined_score (title artist : List Char)
    (e : List Char × List Char × List Char) : Rat :=
  3/10 * pyRatio (normalize_text title) (normalize_text e.1) +
    7/10 * pyRatio (normalize_text artist) (normalize_text e.2.2)

/-- Processing of one term's entries in the title flow
(src/uta-net.py:436-449): keep the entry with the strictly highest
combined score. -/
def title_step (title artist : List Char) (st : BestState)
    (entries : List (List Char × List Char × List Char)) : BestState :=
  entries.foldl
    (fun st e =>
      let c := combined_score title artist e
      if st.highest < c then ⟨some e, c⟩ else st)
    st

/-- Term loop of `LyricsTagger.get_lyrics_by_title_search`
(src/uta-net.py:428-452), with the collaborator
`get_title_search_results` abstracted as `respond` (`none` models its
transport-error result, src/uta-net.py:372-373).  `if not entries:
continue` treats an error and an empty result identically and skips the
break-check; after a non-empty result the loop stops as soon as the best
combined score so far is at least 0.3.  Returns the final state and the
terms actually issued. -/
def title_loop
    (respond : List Char → Option (List (List Char × List Char × List Char)))
    (title artist : List Char) :
    List (List Char) → BestState → BestState × List (List Char)
  | [], st => (st, [])
  | t :: ts, st =>
    match respond t with
    | none =>
      let r := title_loop respond title artist ts st
      (r.1, t :: r.2)
    | some [] =>
      let r := title_loop respond title artist ts st
      (r.1, t :: r.2)
    | some (e :: es) =>
      let st' := title_step title artist st (e :: es)
      if (3 : Rat)/10 ≤ st'.highest then (st', [t])
      else
        let r := title_loop respond title artist ts st'
        (r.1, t :: r.2)

/-- The terms a full title resolution issues to the collaborator: the term
loop run over `extract_search_terms title` (5 terms maximum, the source's
default) from the empty best state. -/
def title_trace
    (respond : List Char → Option (List (List Char × List Char × List Char)))
    (title artist : List Char) : List (List Char) :=
  (title_loop respond title artist (extract_search_terms title 5) ⟨none, 0⟩).2

/-- Collaborator scenario for the combined-score boundary: the raw title
term returns one entry with title similarity 1 and artist similarity 0;
every other term returns an empty result. -/
def boundaryRespond (t : List Char) :
    Option (List (List Char × List Char × List Char)) :=
  if t = "Hello".toList then some [("hello".toList, "u".toList, "qqq".toList)]
  else some []

/-- Collaborator scenario for the first-term transport error: the raw
title term fails with a transport error, the normalized term returns one
entry matching the artist exactly, every other term returns an empty
result. -/
def firstErrorRespond (t : List Char) :
    Option (List (List Char × List Char × List Char)) :=
  if t = "HELLO 米津".toList then none
  else if t = "hello 米津".toList then
    some [("hello 米津".toList, "u".toList, "foo".toList)]
  else some []

/-- Collaborator scenario for the artist-flow stopping rule: the first
term returns one exactly-matching artist entry. -/
def artistStopRespond (t : List Char) :
    Option (List (List Char × List Char × List Char)) :=
  if t = "abc".toList then some [("abc".toList, "u".toList, "9".toList)]
  else some []

/-- Invariant of the `find_best_match` loop, relative to a set `S` of
candidates allowed to appear in the state: with no best candidate the
highest ratio is still the initial 0; a best candidate is an allowed
candidate whose query ratio, at least the threshold, is the recorded
highest; a substring fallback is an allowed candidate occurring in the
query. -/
def FBMInv (q : List Char) (thr : Rat) (S : List (List Char)) (st : FBMState) : Prop :=
  (st.best = none → st.highest = 0) ∧
  (∀ b, st.best = some b → b ∈ S ∧ st.highest = pyRatio q b ∧ thr ≤ st.highest) ∧
  (∀ s, st.sub = some s → s ∈ S ∧ pyIn s q = true)

set_option allowUnsafeReducibility true

attribute [local semireducible] Rat.mul Rat.inv Rat.add Rat.sub

set_option maxRecDepth 200000

/-- A property preserved by every step of a left fold holds of its result. -/
theorem foldl_preserve {α β : Type} (P : β → Prop) (f : β → α → β) :
    ∀ (l : List α) (b : β), P b → (∀ c x, x ∈ l → P c → P (f c x)) → P (l.foldl f b)
  | [], _, hb, _ => hb
  | x :: xs, b, hb, hstep =>
    foldl_preserve P f xs (f b x) (hstep b x (List.mem_cons_self x xs) hb)
      (fun c y hy => hstep c y (List.mem_cons_of_mem x hy))

/-- The longest common initial run of a list with itself is the whole list. -/
theorem matchLen_self : ∀ a : List Char, matchLen a a = a.length
  | [] => rfl
  | x :: xs => by simp [matchLen, matchLen_self xs]

/-- The common initial run is no longer than the first list. -/
theorem matchLen_le_left : ∀ a b : List Char, matchLen a b ≤ a.length
  | [], _ => Nat.le_refl 0
  | _ :: _, [] => Nat.zero_le _
  | x :: xs, y :: ys => by
    simp only [matchLen]
    split
    · exact Nat.succ_le_succ (matchLen_le_left xs ys)
    · exact Nat.zero_le _

/-- On a list matched against itself, the longest-match search settles on
the whole list, found at the first index pair. -/
theorem bestFrom_self (a : List Char) (ha : a ≠ []) : bestFrom a a = (0, 0, a.length) := by
  obtain ⟨n, hn⟩ : ∃ n, a.length = n + 1 := by
    cases a with
    | nil => exact absurd rfl ha
    | cons x xs => exact ⟨xs.length, rfl⟩
  have hfix : ∀ i j : Nat, bestUpd a a (0, 0, n + 1) i j = (0, 0, n + 1) := by
    intro i j
    have hk : matchLen (a.drop i) (a.drop j) ≤ n + 1 := by
      refine Nat.le_trans (matchLen_le_left _ _) ?_
      rw [List.length_drop, ← hn]
      exact Nat.sub_le _ _
    simp only [bestUpd]
    rw [if_neg (Nat.not_lt.mpr hk)]
  have hinner : ∀ (i : Nat) (l : List Nat),
      l.foldl (fun st' j => bestUpd a a st' i j) (0, 0, n + 1) = (0, 0, n + 1) := by
    intro i l
    exact foldl_preserve (fun st => st = (0, 0, n + 1)) _ l _ rfl
      (fun st j _ hst => by rw [hst, hfix i j])
  have h0 : bestUpd a a (0, 0, 0) 0 0 = (0, 0, n + 1) := by
    simp [bestUpd, matchLen_self, hn]
  unfold bestFrom
  rw [hn, List.range_succ_eq_map]
  simp only [List.foldl_cons]
  rw [h0, hinner 0]
  exact foldl_preserve (fun st => st = (0, 0, n + 1)) _ _ _ rfl
    (fun st i _ hst => by rw [hst, hfix]; exact hinner _ _)

/-- No fuel is needed on two empty lists. -/
theorem matchTotalF_nil : ∀ fuel : Nat, matchTotalF fuel [] [] = 0 := by
  intro fuel
  cases fuel with
  | zero => rfl
  | succ f => simp [matchTotalF, bestFrom]

/-- The matching blocks of a list against itself cover it completely. -/
theorem matchTotal_self (a : List Char) : matchTotal a a = a.length := by
  by_cases ha : a = []
  · subst ha; rfl
  · have hne : a.length + a.length ≠ 0 := by
      cases a with
      | nil => exact absurd rfl ha
      | cons x xs => simp [Nat.succ_add]
    obtain ⟨k, hk⟩ := Nat.exists_eq_succ_of_ne_zero hne
    unfold matchTotal
    rw [hk]
    simp only [matchTotalF, bestFrom_self a ha]
    have hlen : a.length ≠ 0 := fun h => ha (List.eq_nil_of_length_eq_zero h)
    rw [if_neg hlen]
    simp [List.drop_length, matchTotalF_nil]

/-- Claim C6 (amended): the similarity scorer is a deterministic function
of its two arguments and is reflexive — a string compared with itself
scores exactly 1 — but it is not symmetric in general (see the
counterexample). -/
theorem claimC6_amended (a : List Char) : pyRatio a a = 1 := by
  by_cases ha : a = []
  · subst ha; rfl
  · have hlen : (a.length : Rat) ≠ 0 :=
      Nat.cast_ne_zero.mpr (fun h => ha (List.eq_nil_of_length_eq_zero h))
    have hne : a.length + a.length ≠ 0 := by
      intro h
      exact ha (List.eq_nil_of_length_eq_zero (Nat.eq_zero_of_add_eq_zero_right h))
    unfold pyRatio
    rw [if_neg hne, matchTotal_self]
    rw [← two_mul]
    exact div_self (by positivity)

/-- Claim C6 (counterexample): the similarity scorer of the source
(`difflib.SequenceMatcher.ratio`) is not symmetric: "diet" against "tide"
scores 1/2, while "tide" against "diet" scores 1/4 (the greedy
longest-block recursion matches a different total in the two directions). -/
theorem claimC6_counterexample :
    pyRatio "tide".toList "diet".toList ≠ pyRatio "diet".toList "tide".toList := by
  decide

/-- One step of `find_best_match` preserves the loop invariant. -/
theorem fbmStep_inv (q : List Char) (thr : Rat) (S : List (List Char)) (st : FBMState)
    (c : List Char) (hc : c ∈ S) (h : FBMInv q thr S st) :
    FBMInv q thr S (fbmStep q thr st c) := by
  obtain ⟨h1, h2, h3⟩ := h
  by_cases hcond : st.highest < pyRatio q c ∧ thr ≤ pyRatio q c
  · by_cases ht : pyTruthy (some c) = false ∧ pyIn c q = true
    · have hsubgoal : ∀ z : Option (List Char), (∀ s, z = some s → s ∈ S ∧ pyIn s q = true) →
          FBMInv q thr S ⟨some c, pyRatio q c, z⟩ := by
        intro z hz
        refine ⟨?_, ?_, hz⟩
        · intro hco
          exact Option.noConfusion hco
        · intro b hb
          obtain rfl : c = b := Option.some.inj hb
          exact ⟨hc, rfl, hcond.2⟩
      have hznew : ∀ s, (some c : Option (List Char)) = some s → s ∈ S ∧ pyIn s q = true := by
        intro s hss
        obtain rfl : c = s := Option.some.inj hss
        exact ⟨hc, ht.2⟩
      cases hs : st.sub with
      | none =>
        have hres : fbmStep q thr st c = ⟨some c, pyRatio q c, some c⟩ := by
          simp [fbmStep, hcond, ht, hs]
        rw [hres]
        exact hsubgoal (some c) hznew
      | some s =>
        by_cases hlen : s = [] ∨ s.length < c.length
        · have hres : fbmStep q thr st c = ⟨some c, pyRatio q c, some c⟩ := by
            simp only [fbmStep, if_pos hcond]
            rw [if_pos (by simpa using ht), hs]
            dsimp only
            rw [if_pos hlen]
          rw [hres]
          exact hsubgoal (some c) hznew
        · have hres : fbmStep q thr st c = ⟨some c, pyRatio q c, some s⟩ := by
            simp only [fbmStep, if_pos hcond]
            rw [if_pos (by simpa using ht), hs]
            dsimp only
            rw [if_neg hlen]
          rw [hres]
          exact hsubgoal (some s) (by
            intro s' hss
            obtain rfl : s = s' := Option.some.inj hss
            exact h3 s (by rw [hs]))
    · have hres : fbmStep q thr st c = ⟨some c, pyRatio q c, st.sub⟩ := by
        simp only [fbmStep, if_pos hcond]
        rw [if_neg (by simpa using ht)]
      rw [hres]
      refine ⟨?_, ?_, h3⟩
      · intro hco
        exact Option.noConfusion hco
      · intro b hb
        obtain rfl : c = b := Option.some.inj hb
        exact ⟨hc, rfl, hcond.2⟩
  · by_cases hsub : pyTruthy st.best = false ∧ pyIn c q = true
    · cases hs : st.sub with
      | none =>
        have hres : fbmStep q thr st c = ⟨st.best, st.highest, some c⟩ := by
          simp only [fbmStep, if_neg hcond]
          rw [if_pos (by simpa using hsub), hs]
        rw [hres]
        refine ⟨h1, h2, ?_⟩
        intro s hss
        obtain rfl : c = s := Option.some.inj hss
        exact ⟨hc, hsub.2⟩
      | some s =>
        by_cases hlen : s = [] ∨ s.length < c.length
        · have hres : fbmStep q thr st c = ⟨st.best, st.highest, some c⟩ := by
            simp only [fbmStep, if_neg hcond]
            rw [if_pos (by simpa using hsub), hs]
            dsimp only
            rw [if_pos hlen]
          rw [hres]
          refine ⟨h1, h2, ?_⟩
          intro s' hss
          obtain rfl : c = s' := Option.some.inj hss
          exact ⟨hc, hsub.2⟩
        · have hres : fbmStep q thr st c = st := by
            simp only [fbmStep, if_neg hcond]
            rw [if_pos (by simpa using hsub), hs]
            dsimp only
            rw [if_neg hlen]
          rw [hres]
          exact ⟨h1, h2, h3⟩
    · have hres : fbmStep q thr st c = st := by
        simp only [fbmStep, if_neg hcond]
        rw [if_neg (by simpa using hsub)]
      rw [hres]
      exact ⟨h1, h2, h3⟩

/-- Any result of `find_best_match` is one of the candidates, carries the
similarity ratio between the query and that candidate as its score, and
either meets the threshold or is a substring of the query. -/
theorem fbm_spec (q : List Char) (cands : List (List Char)) (thr : Rat)
    (m : List Char) (r : Rat) (h : find_best_match q cands thr = some (m, r)) :
    m ∈ cands ∧ r = pyRatio q m ∧ (thr ≤ r ∨ pyIn m q = true) := by
  have hinit : FBMInv q thr cands ⟨none, 0, none⟩ := by
    refine ⟨fun _ => rfl, ?_, ?_⟩
    · intro b hb
      exact Option.noConfusion hb
    · intro s hs
      exact Option.noConfusion hs
  have hinv : FBMInv q thr cands (cands.foldl (fbmStep q thr) ⟨none, 0, none⟩) :=
    foldl_preserve (FBMInv q thr cands) (fbmStep q thr) cands _ hinit
      (fun st c hcmem hst => fbmStep_inv q thr cands st c hcmem hst)
  rcases hstate : cands.foldl (fbmStep q thr) ⟨none, 0, none⟩ with ⟨best, highest, sub⟩
  rw [hstate] at hinv
  simp only [find_best_match] at h
  rw [hstate] at h
  cases best with
  | none =>
    cases sub with
    | none => simp at h
    | some s =>
      cases s with
      | nil => simp at h
      | cons x xs =>
        simp only [Option.some.injEq, Prod.mk.injEq] at h
        obtain ⟨rfl, rfl⟩ := h
        obtain ⟨hmem, hin⟩ := hinv.2.2 (x :: xs) rfl
        exact ⟨hmem, rfl, Or.inr hin⟩
  | some b =>
    cases b with
    | nil =>
      cases sub with
      | none => simp at h
      | some s =>
        cases s with
        | nil => simp at h
        | cons x xs =>
          simp only [Option.some.injEq, Prod.mk.injEq] at h
          obtain ⟨rfl, rfl⟩ := h
          obtain ⟨hmem, hin⟩ := hinv.2.2 (x :: xs) rfl
          exact ⟨hmem, rfl, Or.inr hin⟩
    | cons y ys =>
      simp only [Option.some.injEq, Prod.mk.injEq] at h
      obtain ⟨rfl, rfl⟩ := h
      obtain ⟨hmem, heq, hthr⟩ := hinv.2.1 (y :: ys) rfl
      exact ⟨hmem, heq, Or.inl hthr⟩

/-- Claim C3: when the candidate matcher returns a match whose confidence
is strictly below the threshold, the matched candidate is a literal
substring of the query and the score is the similarity ratio recomputed
between the query and that candidate; in every other returned case the
score is at least the threshold. -/
theorem claimC3 (q : List Char) (cands : List (List Char)) (thr : Rat)
    (m : List Char) (r : Rat) (h : find_best_match q cands thr = some (m, r)) :
    (r < thr → pyIn m q = true ∧ r = pyRatio q m) ∧
    (¬(pyIn m q = true ∧ r = pyRatio q m) → thr ≤ r) := by
  obtain ⟨_, heq, hd⟩ := fbm_spec q cands thr m r h
  constructor
  · intro hlt
    rcases hd with hth | hin
    · exact absurd hlt (not_lt.mpr hth)
    · exact ⟨hin, heq⟩
  · intro hn
    rcases hd with hth | hin
    · exact hth
    · exact absurd ⟨hin, heq⟩ hn

/-- Claim C3 (witness): on query "ab!", candidates ["ab"], threshold 0.9,
the matcher returns the substring fallback "ab" with recomputed score 4/5,
which is below the threshold. -/
theorem claimC3_witness :
    pyIn "ab".toList "ab!".toList = true ∧
      (4 : Rat)/5 = pyRatio "ab!".toList "ab".toList :=
  (claimC3 "ab!".toList ["ab".toList] (9/10) "ab".toList (4/5) (by decide)).1 (by decide)

/-- Claim C10: every result of the candidate matcher names one of the
supplied candidates and carries as confidence exactly the similarity ratio
between the query and that candidate. -/
theorem claimC10 (q : List Char) (cands : List (List Char)) (thr : Rat)
    (m : List Char) (r : Rat) (h : find_best_match q cands thr = some (m, r)) :
    m ∈ cands ∧ r = pyRatio q m :=
  ⟨(fbm_spec q cands thr m r h).1, (fbm_spec q cands thr m r h).2.1⟩

/-- Claim C10 (witness): on query "abc", candidates ["abc"], threshold
0.3, the matcher returns the candidate "abc" with confidence 1, the ratio
of "abc" against itself. -/
theorem claimC10_witness :
    "abc".toList ∈ ["abc".toList] ∧ (1 : Rat) = pyRatio "abc".toList "abc".toList :=
  claimC10 "abc".toList ["abc".toList] (3/10) "abc".toList 1 (by decide)

set_option maxRecDepth 80000 in
/-- Claim C8: for query "夜に駆ける (Live Ver.)", candidates ["夜に駆ける",
"夜に駆ける (Acoustic)"] and threshold 0.8, the matcher returns the
substring-fallback candidate "夜に駆ける" with its recomputed similarity
5/11 as confidence — not the longer candidate and not no-match. -/
theorem claimC8 :
    find_best_match "夜に駆ける (Live Ver.)".toList
        ["夜に駆ける".toList, "夜に駆ける (Acoustic)".toList] (4/5) =
      some ("夜に駆ける".toList,
        pyRatio "夜に駆ける (Live Ver.)".toList "夜に駆ける".toList) ∧
    pyRatio "夜に駆ける (Live Ver.)".toList "夜に駆ける".toList = 5/11 := by
  decide

/-- Claim C5: in artist resolution, as soon as the best score reaches at
least 0.3 after processing one search term's (non-empty) results, the loop
returns at once: the remaining search terms, whatever they are, are never
issued to the catalogue-search collaborator. -/
theorem claimC5
    (respond : List Char → Option (List (List Char × List Char × List Char)))
    (artistName t : List Char) (ts : List (List Char)) (st : BestState)
    (e : List Char × List Char × List Char)
    (es : List (List Char × List Char × List Char))
    (h1 : respond t = some (e :: es))
    (h2 : (3 : Rat)/10 ≤ (artist_step artistName st (e :: es)).highest) :
    search_artist_loop respond artistName (t :: ts) st =
      (artist_step artistName st (e :: es), [t]) := by
  simp [search_artist_loop, h1, h2]

/-- Claim C5 (witness): searching for artist "abc" with terms ["abc",
"zz"], the first term returns an exactly-matching entry (score 1 ≥ 0.3)
and the loop stops after issuing only the first term. -/
theorem claimC5_witness :
    search_artist_loop artistStopRespond "abc".toList
        ["abc".toList, "zz".toList] ⟨none, 0⟩ =
      (artist_step "abc".toList ⟨none, 0⟩ [("abc".toList, "u".toList, "9".toList)],
        ["abc".toList]) :=
  claimC5 artistStopRespond "abc".toList "abc".toList ["zz".toList] ⟨none, 0⟩
    ("abc".toList, "u".toList, "9".toList) [] (by decide) (by decide)

/-- Claim C1 (amended): an entry with title similarity 1.0 and artist
similarity 0.0 gets combined score exactly 0.3; and since the title flow's
stopping check is `best >= 0.3`, a best-so-far of exactly 0.3 does stop
the resolution: no further search term is issued. -/
theorem claimC1_amended :
    (∀ (title artist : List Char) (e : List Char × List Char × List Char),
        pyRatio (normalize_text title) (normalize_text e.1) = 1 →
        pyRatio (normalize_text artist) (normalize_text e.2.2) = 0 →
        combined_score title artist e = 3/10) ∧
    (∀ (respond : List Char → Option (List (List Char × List Char × List Char)))
        (title artist t : List Char) (ts : List (List Char)) (st : BestState)
        (e : List Char × List Char × List Char)
        (es : List (List Char × List Char × List Char)),
        respond t = some (e :: es) →
        (3 : Rat)/10 ≤ (title_step title artist st (e :: es)).highest →
        title_loop respond title artist (t :: ts) st =
          (title_step title artist st (e :: es), [t])) := by
  constructor
  · intro title artist e h1 h2
    unfold combined_score
    rw [h1, h2]
    norm_num
  · intro respond title artist t ts st e es h1 h2
    simp [title_loop, h1, h2]

/-- Claim C1 (witness): on title "Hello" and artist "world", the entry
("hello", ·, "qqq") has title similarity 1 and artist similarity 0, so
scores exactly 3/10; the loop with that first-term result stops after the
first of its two terms. -/
theorem claimC1_witness :
    combined_score "Hello".toList "world".toList
        ("hello".toList, "u".toList, "qqq".toList) = 3/10 ∧
    title_loop boundaryRespond "Hello".toList "world".toList
        ["Hello".toList, "hello".toList] ⟨none, 0⟩ =
      (title_step "Hello".toList "world".toList ⟨none, 0⟩
          [("hello".toList, "u".toList, "qqq".toList)], ["Hello".toList]) :=
  ⟨claimC1_amended.1 "Hello".toList "world".toList
      ("hello".toList, "u".toList, "qqq".toList) (by decide) (by decide),
    claimC1_amended.2 boundaryRespond "Hello".toList "world".toList "Hello".toList
      ["hello".toList] ⟨none, 0⟩ ("hello".toList, "u".toList, "qqq".toList) []
      (by decide) (by decide)⟩

/-- Claim C1 (counterexample): the claim's boundary reading is false on
the code.  On title "Hello" (terms ["Hello", "hello"]) and artist
"world", the first term's only entry scores exactly 0.3, and resolution
stops there: the trace of issued terms is just ["Hello"], the second term
is never tried, because the stopping check is `>= 0.3`, which exactly 0.3
satisfies. -/
theorem claimC1_counterexample :
    combined_score "Hello".toList "world".toList
        ("hello".toList, "u".toList, "qqq".toList) = 3/10 ∧
    extract_search_terms "Hello".toList 5 = ["Hello".toList, "hello".toList] ∧
    title_trace boundaryRespond "Hello".toList "world".toList = ["Hello".toList] := by
  refine ⟨by decide, by decide, by decide⟩

/-- Claim C2 (amended): in the title flow a transport error from the
collaborator on any term — the very first included — is treated exactly
as that term yielding zero entries: the best-so-far state is unchanged
and the loop moves on to the next term; there is no dedicated secondary
attempt (the longest kanji run is only queried in its ordinary position
in the strategist's term sequence). -/
theorem claimC2_amended
    (respond : List Char → Option (List (List Char × List Char × List Char)))
    (title artist t : List Char) (ts : List (List Char)) (st : BestState)
    (h : respond t = none ∨ respond t = some []) :
    title_loop respond title artist (t :: ts) st =
      ((title_loop respond title artist ts st).1,
        t :: (title_loop respond title artist ts st).2) := by
  rcases h with h | h <;> simp [title_loop, h]

/-- Claim C2 (witness): a collaborator that always fails with a transport
error makes the loop skip the (first) term with state unchanged. -/
theorem claimC2_witness :
    title_loop (fun _ => none) "x".toList "y".toList ["x".toList] ⟨none, 0⟩ =
      ((title_loop (fun _ => none) "x".toList "y".toList [] ⟨none, 0⟩).1,
        "x".toList :: (title_loop (fun _ => none) "x".toList "y".toList [] ⟨none, 0⟩).2) :=
  claimC2_amended (fun _ => none) "x".toList "y".toList "x".toList [] ⟨none, 0⟩
    (Or.inl rfl)

/-- Claim C2 (counterexample): on title "HELLO 米津" (terms ["HELLO 米津",
"hello 米津", "米津", "hello"]) the collaborator fails with a transport
error on the very first term.  The code then simply issues the second
strategist term "hello 米津" (the normalized title), which succeeds; the
longest kanji run "米津" — the claimed one-time secondary attempt — is
never queried at all. -/
theorem claimC2_counterexample :
    firstErrorRespond "HELLO 米津".toList = none ∧
    extract_search_terms "HELLO 米津".toList 5 =
      ["HELLO 米津".toList, "hello 米津".toList, "米津".toList, "hello".toList] ∧
    title_trace firstErrorRespond "HELLO 米津".toList "foo".toList =
      ["HELLO 米津".toList, "hello 米津".toList] ∧
    "米津".toList ∉ title_trace firstErrorRespond "HELLO 米津".toList "foo".toList := by
  refine ⟨rfl, by decide, by decide, by decide⟩

/-- Claim C4 (amended): for every raw input whose normalization is the
empty string, the search-term strategist returns exactly one term — the
first 10 characters of the stripped raw input — and that term is
non-empty precisely when the stripped raw input is non-empty (a
whitespace-only raw input yields the empty term, see the counterexample). -/
theorem claimC4_amended (text : List Char) (mt : Nat)
    (h : normalize_text text = []) :
    extract_search_terms text mt = [(pyStrip text).take 10] ∧
    (pyStrip text ≠ [] → (pyStrip text).take 10 ≠ []) := by
  constructor
  · simp [extract_search_terms, h]
  · intro hne htake
    rcases List.take_eq_nil_iff.mp htake with h10 | hnil
    · cases h10
    · exact hne hnil

/-- Claim C4 (witness): the input "!" normalizes to the empty string, and
the strategist returns exactly its strip-then-truncate term, which is
non-empty. -/
theorem claimC4_witness :
    extract_search_terms "!".toList 5 = [(pyStrip "!".toList).take 10] ∧
    (pyStrip "!".toList ≠ [] → (pyStrip "!".toList).take 10 ≠ []) :=
  claimC4_amended "!".toList 5 (by decide)

/-- Claim C4 (counterexample): the whitespace-only input " " is non-empty
and normalizes to the empty string, yet the strategist returns the single
term "" — an empty term, contradicting the claimed non-emptiness (the
first 10 characters of the *stripped* input are empty here). -/
theorem claimC4_counterexample :
    " ".toList ≠ [] ∧ normalize_text " ".toList = [] ∧
    extract_search_terms " ".toList 5 = [[]] := by
  refine ⟨by decide, by decide, by decide⟩

/-- The first-occurrence deduplication pass returns a duplicate-free list
avoiding everything already seen. -/
theorem pyDedupAux_spec (l : List (List Char)) : ∀ seen : List (List Char),
    (pyDedupAux seen l).Nodup ∧ ∀ x ∈ pyDedupAux seen l, x ∉ seen := by
  induction l with
  | nil => intro seen; exact ⟨List.nodup_nil, by simp [pyDedupAux]⟩
  | cons x xs ih =>
    intro seen
    by_cases hx : x ∈ seen
    · simp only [pyDedupAux, if_pos hx]
      exact ih seen
    · simp only [pyDedupAux, if_neg hx]
      obtain ⟨h1, h2⟩ := ih (x :: seen)
      constructor
      · rw [List.nodup_cons]
        exact ⟨fun hmem => (h2 x hmem) (List.mem_cons_self x seen), h1⟩
      · intro y hy
        rcases List.mem_cons.mp hy with rfl | hy'
        · exact hx
        · exact fun hseen => (h2 y hy') (List.mem_cons_of_mem _ hseen)

/-- `pyDedup` returns a duplicate-free list. -/
theorem pyDedup_nodup (l : List (List Char)) : (pyDedup l).Nodup :=
  (pyDedupAux_spec l []).1

/-- Claim C9 (amended): the search-term strategist's result is always
duplicate-free, and it has at most `maxTerms` entries whenever
`maxTerms ≥ 1` (with `maxTerms = 0` the empty-normalization short-circuit
still returns one term, see the counterexample). -/
theorem claimC9_amended (text : List Char) (mt : Nat) :
    (extract_search_terms text mt).Nodup ∧
    (1 ≤ mt → (extract_search_terms text mt).length ≤ mt) := by
  simp only [extract_search_terms]
  by_cases h : normalize_text text = []
  · rw [if_pos h]
    exact ⟨List.nodup_singleton _, fun h1 => by simpa using h1⟩
  · rw [if_neg h]
    refine ⟨?_, fun _ => ?_⟩
    · exact (pyDedup_nodup _).sublist (List.take_sublist _ _)
    · rw [List.length_take]
      exact min_le_left _ _

/-- Claim C9 (witness): on input "Hello" with `maxTerms = 5` the
strategist's terms are pairwise distinct and at most 5. -/
theorem claimC9_witness :
    (extract_search_terms "Hello".toList 5).Nodup ∧
    (extract_search_terms "Hello".toList 5).length ≤ 5 :=
  ⟨(claimC9_amended "Hello".toList 5).1,
    (claimC9_amended "Hello".toList 5).2 (by decide)⟩

/-- Claim C9 (counterexample): with `maxTerms = 0` and the input "!"
(whose normalization is empty), the strategist still returns one term, so
its result is not bounded by `maxTerms` for every `maxTerms` value. -/
theorem claimC9_counterexample :
    extract_search_terms "!".toList 0 = ["!".toList] ∧
    ¬((extract_search_terms "!".toList 0).length ≤ 0) := by
  refine ⟨by decide, by decide⟩

/-- Unfolding of `dropTrail` on a cons cell. -/
theorem dropTrail_cons (c : Char) (t : List Char) :
    dropTrail (c :: t) = if dropTrail t = [] ∧ isPySpace c then [] else c :: dropTrail t :=
  rfl

/-- Dropping a satisfied initial segment twice is dropping it once. -/
theorem dropWhile_idem (p : Char → Bool) (l : List Char) :
    (l.dropWhile p).dropWhile p = l.dropWhile p := by
  induction l with
  | nil => rfl
  | cons c t ih =>
    by_cases hc : p c
    · simp [List.dropWhile_cons, hc, ih]
    · simp [List.dropWhile_cons, hc]

/-- A nonempty list fixed by `dropWhile p` has a head failing `p`. -/
theorem head_not_of_dropWhile_fix (p : Char → Bool) (c : Char) (t : List Char)
    (h : List.dropWhile p (c :: t) = c :: t) : p c = false := by
  by_contra hc
  rw [List.dropWhile_cons, if_pos (by simpa using hc)] at h
  have hlen : (List.dropWhile p t).length ≤ t.length := by
    conv_rhs => rw [← List.takeWhile_append_dropWhile (p := p) (l := t)]
    rw [List.length_append]
    exact Nat.le_add_left _ _
  rw [h] at hlen
  simp at hlen

/-- Removing trailing whitespace twice is removing it once. -/
theorem dropTrail_idem : ∀ l : List Char, dropTrail (dropTrail l) = dropTrail l
  | [] => rfl
  | c :: t => by
    rw [dropTrail_cons]
    by_cases h : dropTrail t = [] ∧ isPySpace c
    · rw [if_pos h]
      rfl
    · rw [if_neg h, dropTrail_cons, dropTrail_idem t, if_neg h]

/-- Removing trailing whitespace preserves having no leading whitespace. -/
theorem dropWhile_dropTrail_fix (x : List Char)
    (h : x.dropWhile isPySpace = x) :
    (dropTrail x).dropWhile isPySpace = dropTrail x := by
  cases x with
  | nil => rfl
  | cons c t =>
    have hc : isPySpace c = false := head_not_of_dropWhile_fix _ c t h
    rw [dropTrail_cons]
    by_cases hd : dropTrail t = [] ∧ isPySpace c
    · rw [if_pos hd]
      rfl
    · rw [if_neg hd]
      simp [List.dropWhile_cons, hc]

/-- Python `str.strip` is idempotent. -/
theorem pyStrip_idem (l : List Char) : pyStrip (pyStrip l) = pyStrip l := by
  unfold pyStrip
  rw [dropWhile_dropTrail_fix _ (dropWhile_idem _ _), dropTrail_idem]

/-- Membership survives the removal of trailing whitespace. -/
theorem mem_dropTrail (x : Char) : ∀ l : List Char, x ∈ dropTrail l → x ∈ l
  | [], h => h
  | c :: t, h => by
    rw [dropTrail_cons] at h
    by_cases hd : dropTrail t = [] ∧ isPySpace c
    · rw [if_pos hd] at h
      cases h
    · rw [if_neg hd] at h
      rcases List.mem_cons.mp h with rfl | h'
      · exact List.mem_cons_self _ _
      · exact List.mem_cons_of_mem _ (mem_dropTrail x t h')

/-- Membership survives stripping. -/
theorem mem_pyStrip (x : Char) (l : List Char) (h : x ∈ pyStrip l) : x ∈ l := by
  unfold pyStrip at h
  have h1 := mem_dropTrail x _ h
  rw [← List.takeWhile_append_dropWhile (p := isPySpace) (l := l)]
  exact List.mem_append_right _ h1

/-- Every value in the lowercase table is kept by the normalizer's filter
and is its own lowercase form; looking any of them up again fails. -/
theorem lowerTable_facts :
    ∀ q ∈ lowerTable, keepChar q.2 = true ∧
      lowerTable.find? (fun r => r.1 = q.2) = none := by
  decide

/-- The normalizer's filter is stable under lowercasing. -/
theorem keep_lowerChar (c : Char) (h : keepChar c = true) :
    keepChar (lowerChar c) = true := by
  unfold lowerChar
  cases hf : lowerTable.find? (fun p => p.1 = c) with
  | none => exact h
  | some p => exact (lowerTable_facts p (List.mem_of_find?_eq_some hf)).1

/-- Python `str.lower` is idempotent characterwise on the modelled table. -/
theorem lowerChar_idem (c : Char) : lowerChar (lowerChar c) = lowerChar c := by
  cases hf : lowerTable.find? (fun p => p.1 = c) with
  | none =>
    have h1 : lowerChar c = c := by
      unfold lowerChar
      rw [hf]
    rw [h1]
    exact h1
  | some p =>
    have h1 : lowerChar c = p.2 := by
      unfold lowerChar
      rw [hf]
    rw [h1]
    unfold lowerChar
    rw [(lowerTable_facts p (List.mem_of_find?_eq_some hf)).2]

/-- A map whose function fixes every element of a list fixes the list. -/
theorem map_fix {f : Char → Char} : ∀ l : List Char, (∀ x ∈ l, f x = x) → l.map f = l
  | [], _ => rfl
  | c :: t, h => by
    rw [List.map_cons, h c (List.mem_cons_self _ _),
      map_fix t (fun x hx => h x (List.mem_cons_of_mem _ hx))]

/-- Every character of a normalized string passes the filter and is its
own lowercase form. -/
theorem mem_normalize_text (s : List Char) (x : Char) (hx : x ∈ normalize_text s) :
    keepChar x = true ∧ lowerChar x = x := by
  unfold normalize_text at hx
  have h1 := mem_pyStrip x _ hx
  unfold pyLower at h1
  obtain ⟨y, hy, rfl⟩ := List.mem_map.mp h1
  exact ⟨keep_lowerChar y (List.of_mem_filter hy), lowerChar_idem y⟩

/-- Claim C7 (amended): normalization is idempotent for every string whose
normalized form is itself NFKC-fixed — in particular whenever no new
canonical composition is exposed by the filtering step.  (The unrestricted
claim fails: filtering can remove a character standing between a base
letter and a combining mark, letting the second NFKC pass compose them;
see the counterexample.) -/
theorem claimC7_amended (s : List Char)
    (h : pyNFKC (normalize_text s) = normalize_text s) :
    normalize_text (normalize_text s) = normalize_text s := by
  show pyStrip (pyLower ((pyNFKC (normalize_text s)).filter keepChar)) = normalize_text s
  rw [h]
  rw [List.filter_eq_self.mpr (fun a ha => (mem_normalize_text s a ha).1)]
  show pyStrip ((normalize_text s).map lowerChar) = normalize_text s
  rw [map_fix _ (fun a ha => (mem_normalize_text s a ha).2)]
  show pyStrip (pyStrip (pyLower ((pyNFKC s).filter keepChar))) = normalize_text s
  rw [pyStrip_idem]
  rfl

/-- Claim C7 (witness): "Hello World!" normalizes to "hello world", which
is NFKC-fixed, so normalizing twice equals normalizing once. -/
theorem claimC7_witness :
    normalize_text (normalize_text "Hello World!".toList) =
      normalize_text "Hello World!".toList :=
  claimC7_amended "Hello World!".toList (by decide)

/-- Claim C7 (counterexample): on the three-character input 'a', '$',
U+0300 (combining grave accent), the first normalization removes the
currency symbol '$' and yields 'a' followed by U+0300; the second pass's
NFKC composes that pair into the single character 'à' (U+00E0), so
normalizing twice differs from normalizing once: the normalizer of the
source is not idempotent. -/
theorem claimC7_counterexample :
    normalize_text (normalize_text ['a', '$', '̀']) ≠ normalize_text ['a', '$', '̀'] := by
  decide
